import Mathlib

/-!
# Verification of the video-scene-detector analysis pipeline

Shallow embedding of the core analysis-and-segmentation pipeline of the
`video-scene-detector` repository (`backend/app/services/video_processor.py`
together with the calibration constants of `backend/app/core/config.py`).

Conventions of the embedding:
* Python floats are modelled as rationals (`ℚ`); Python `int(x)` truncation
  toward zero is modelled by `pyInt`.
* Frame pixels are modelled per channel as natural numbers below 256; the
  bitwise operations of the masking code use `Nat.land` / complements.
* External capabilities (PySceneDetect scene listing, OpenCV contour
  detection, the per-cell variance extraction, FFmpeg invocation success)
  are inputs to the embedded functions, exactly at the call boundaries where
  the source consumes them.
-/

namespace VideoSceneDetector

/-! ## Calibration constants (`backend/app/core/config.py`, class `Settings`) -/

def content_detector_threshold_min : ℤ := 3

def content_detector_threshold_max : ℤ := 27

def cursor_mask_size : ℤ := 25

def edge_mask_width : ℕ := 50

/-! ## Threshold derivation (`_detect_scenes_pyscenedetect`, lines 114–118) -/

/-- Python `int()` applied to a float: truncation toward zero. -/
def pyInt (q : ℚ) : ℤ := if 0 ≤ q then ⌊q⌋ else ⌈q⌉

/-- The detection threshold computed by `_detect_scenes_pyscenedetect`:
`threshold_range = max - min`; `threshold = int(max - sensitivity * range)`;
`threshold = max(min_th, min(max_th, threshold))`. -/
def detectionThreshold (sensitivity : ℚ) : ℤ :=
  max content_detector_threshold_min (min content_detector_threshold_max
    (pyInt ((content_detector_threshold_max : ℚ) - sensitivity *
      ((content_detector_threshold_max - content_detector_threshold_min : ℤ) : ℚ))))

/-- The spec's threshold formula, written as the spec states it (no integer
conversion inside the clamp): `max(min_th, min(max_th, max_th - s * range))`. -/
def specThreshold (sensitivity : ℚ) : ℚ :=
  max (content_detector_threshold_min : ℚ)
    (min (content_detector_threshold_max : ℚ)
      ((content_detector_threshold_max : ℚ) -
        sensitivity * ((content_detector_threshold_max : ℚ) -
          (content_detector_threshold_min : ℚ))))

theorem pyInt_mono {a b : ℚ} (h : a ≤ b) : pyInt a ≤ pyInt b := by
  unfold pyInt
  by_cases ha : 0 ≤ a
  · rw [if_pos ha, if_pos (ha.trans h)]
    exact Int.floor_le_floor h
  · by_cases hb : 0 ≤ b
    · rw [if_neg ha, if_pos hb]
      refine le_trans (Int.ceil_le.mpr ?_) (Int.floor_nonneg.mpr hb)
      exact_mod_cast le_of_lt (not_le.mp ha)
    · rw [if_neg ha, if_neg hb]
      exact Int.ceil_le_ceil h

theorem pyInt_of_nonneg {a : ℚ} (h : 0 ≤ a) : pyInt a = ⌊a⌋ := if_pos h

/-- Unfolding of the calibration constants inside `detectionThreshold`. -/
theorem detectionThreshold_eq (s : ℚ) :
    detectionThreshold s = max 3 (min 27 (pyInt (27 - s * 24))) := by
  simp only [detectionThreshold, content_detector_threshold_max,
    content_detector_threshold_min]
  norm_num

/-- Evaluation helper: the threshold at sensitivity `0.8` is `7`. -/
theorem detectionThreshold_four_fifths : detectionThreshold (4/5) = 7 := by
  have hfl : ⌊(39 : ℚ)/5⌋ = 7 := by
    rw [Int.floor_eq_iff]
    norm_num
  rw [detectionThreshold_eq, show ((27 : ℚ) - 4/5 * 24) = 39/5 by norm_num,
    pyInt_of_nonneg (by norm_num), hfl]
  decide

/-- On `[0, 1]` the spec's real-valued clamp formula is just `27 - 24 s`. -/
theorem specThreshold_eq {s : ℚ} (h0 : 0 ≤ s) (h1 : s ≤ 1) :
    specThreshold s = 27 - s * 24 := by
  simp only [specThreshold, content_detector_threshold_max,
    content_detector_threshold_min]
  push_cast
  rw [min_eq_right (by nlinarith), max_eq_right (by nlinarith)]
  norm_num

/-- C1. The claim asserts that the computed threshold equals the real-valued
clamp formula `max(3, min(27, 27 - s·24))` and that sensitivity `0.8` yields
threshold `8` after integer conversion.  Both parts fail on the code: Python
`int()` truncates toward zero, so at `s = 0.8` the formula value is `7.8`
while the computed threshold is `7`, not `8`. -/
theorem C1_counterexample_threshold_at_point_eight :
    detectionThreshold (4/5) = 7 ∧ specThreshold (4/5) = 39/5 ∧
      ((detectionThreshold (4/5) : ℚ) ≠ specThreshold (4/5)) ∧
      detectionThreshold (4/5) ≠ 8 := by
  have h := detectionThreshold_four_fifths
  have hs : specThreshold (4/5) = 39/5 := by
    rw [specThreshold_eq (by norm_num) (by norm_num)]; norm_num
  refine ⟨h, hs, ?_, by omega⟩
  rw [h, hs]; norm_num

/-- C1 (amended): for every sensitivity `s ∈ [0,1]` the computed detection
threshold is the *floor* of the spec's clamp formula
`max(3, min(27, 27 - s·24))` (Python `int()` truncates), and in particular
sensitivity `0.8` yields threshold `7`, not `8`. -/
theorem C1_threshold_floor_of_spec_formula (s : ℚ) (h0 : 0 ≤ s) (h1 : s ≤ 1) :
    detectionThreshold s = ⌊specThreshold s⌋ ∧ detectionThreshold (4/5) = 7 := by
  refine ⟨?_, detectionThreshold_four_fifths⟩
  have harg3 : (3:ℚ) ≤ 27 - s * 24 := by nlinarith
  have harg27 : (27:ℚ) - s * 24 ≤ 27 := by nlinarith
  have hfl3 : (3:ℤ) ≤ ⌊(27:ℚ) - s * 24⌋ := by
    rw [Int.le_floor]; exact_mod_cast harg3
  have hfl27 : ⌊(27:ℚ) - s * 24⌋ ≤ 27 := by
    have h := Int.floor_le_floor harg27
    simpa using h
  rw [specThreshold_eq h0 h1, detectionThreshold_eq,
    pyInt_of_nonneg (by linarith), min_eq_right hfl27, max_eq_right hfl3]

/-- C1 witness: the amended theorem applied at sensitivity `0.8`. -/
theorem C1_threshold_floor_witness :
    detectionThreshold (4/5) = ⌊specThreshold (4/5)⌋ ∧ detectionThreshold (4/5) = 7 :=
  C1_threshold_floor_of_spec_formula (4/5) (by norm_num) (by norm_num)

/-- C2: the threshold mapping is monotonically non-increasing in sensitivity
(over all rational inputs, not just `[0,1]`) and always bounded in `[3, 27]`. -/
theorem C2_threshold_mono_bounded :
    (∀ s1 s2 : ℚ, s1 < s2 → detectionThreshold s2 ≤ detectionThreshold s1) ∧
    (∀ s : ℚ, content_detector_threshold_min ≤ detectionThreshold s ∧
      detectionThreshold s ≤ content_detector_threshold_max) := by
  constructor
  · intro s1 s2 h
    have harg : (27:ℚ) - s2 * 24 ≤ 27 - s1 * 24 := by nlinarith
    have hm := pyInt_mono harg
    rw [detectionThreshold_eq, detectionThreshold_eq]
    exact max_le_max le_rfl (min_le_min le_rfl hm)
  · intro s
    simp only [content_detector_threshold_max, content_detector_threshold_min]
    rw [detectionThreshold_eq]
    exact ⟨le_max_left _ _, max_le (by norm_num) (min_le_left _ _)⟩

/-- C2 witness: the theorem applied at the concrete pair `0 < 1`. -/
theorem C2_threshold_mono_witness :
    detectionThreshold 1 ≤ detectionThreshold 0 :=
  C2_threshold_mono_bounded.1 0 1 (by norm_num)

/-! ## Change classification (`_classify_change`, lines 254–298)

`_classify_change` partitions the frame into a 3×3 grid, computes the
per-cell grayscale variance vector, and classifies from the statistics of
that vector.  The per-cell variance extraction goes through OpenCV
(`cv2.cvtColor`, `np.var`); the decision chain itself is a pure function of
the collected variance vector, embedded here over `List ℚ`.

`np.std(variances)` is the square root of the population variance; the
source only compares it against the nonnegative constants `1000` and
`2000`, so the comparisons are embedded equivalently as comparisons of the
population variance against `1000^2` and `2000^2`. -/

/-- Mean (`np.mean`) of a list (division by zero yields `0`, unused on `[]`). -/
def listMean (v : List ℚ) : ℚ := v.sum / v.length

/-- Population variance: the square of `np.std`. -/
def popVariance (v : List ℚ) : ℚ :=
  (v.map (fun x => (x - listMean v)^2)).sum / v.length

/-- Python `max(...)` over a list of rationals (seeded with `0`; the source
only applies it to nonempty lists). -/
def listMax (v : List ℚ) : ℚ := v.foldr max 0

theorem mem_le_listMax {v : List ℚ} {x : ℚ} (hx : x ∈ v) : x ≤ listMax v := by
  induction v with
  | nil => cases hx
  | cons a t ih =>
    rcases List.mem_cons.mp hx with h | h
    · subst h; exact le_max_left _ _
    · exact le_trans (ih h) (le_max_right _ _)

/-- Maximum `max(variances)` (seeded with `0`; only applied to nonempty lists). -/
def maxVariance (v : List ℚ) : ℚ := listMax v

/-- Guard of branch 1: `max_variance < 1000`. -/
def guardButtonClick (v : List ℚ) : Prop := maxVariance v < 1000

/-- Guard of branch 2: `max_variance < 5000 and variance_std < 1000`. -/
def guardDialogOpen (v : List ℚ) : Prop :=
  maxVariance v < 5000 ∧ popVariance v < 1000^2

/-- Guard of branch 3: `max_variance > 10000`. -/
def guardUiUpdate (v : List ℚ) : Prop := maxVariance v > 10000

/-- Guard of branch 4: `variance_std > 2000`. -/
def guardFormInput (v : List ℚ) : Prop := popVariance v > 2000^2

/-- The decision chain of `_classify_change` on the per-cell variance
vector (first match wins, as in the source's `if/elif` chain). -/
def classifyChange (variances : List ℚ) : String × ℚ :=
  if variances = [] then ("unknown", 1/2)
  else if maxVariance variances < 1000 then ("button_click", 7/10)
  else if maxVariance variances < 5000 ∧ popVariance variances < 1000^2 then
    ("dialog_open", 4/5)
  else if maxVariance variances > 10000 then ("ui_update", 9/10)
  else if popVariance variances > 2000^2 then ("form_input", 3/5)
  else ("general_change", 1/2)

theorem mem_le_maxVariance {v : List ℚ} {x : ℚ} (hx : x ∈ v) :
    x ≤ maxVariance v := mem_le_listMax hx

theorem sum_sq_dev (v : List ℚ) (m : ℚ) :
    (v.map (fun x => (x - m)^2)).sum =
      (v.map (fun x => x^2)).sum - 2 * m * v.sum + v.length * m^2 := by
  induction v with
  | nil => simp
  | cons a t ih =>
    simp only [List.map_cons, List.sum_cons, List.length_cons, ih]
    push_cast
    ring

theorem sum_sq_le_of_bounded {v : List ℚ} (h : ∀ x ∈ v, 0 ≤ x ∧ x < 1000) :
    (v.map (fun x => x^2)).sum ≤ 1000 * v.sum := by
  induction v with
  | nil => simp
  | cons a t ih =>
    have ha := h a (List.mem_cons_self a t)
    have ht := ih (fun x hx => h x (List.mem_cons_of_mem a hx))
    simp only [List.map_cons, List.sum_cons]
    nlinarith [ha.1, ha.2, ht]

/-- Key bound: a vector of nonnegative entries all below `1000` has
population variance at most `250000` (hence `np.std` below `2000`). -/
theorem popVariance_le_of_bounded {v : List ℚ} (h0 : ∀ x ∈ v, 0 ≤ x)
    (h1 : ∀ x ∈ v, x < 1000) : popVariance v ≤ 250000 := by
  rcases eq_or_ne v [] with rfl | hne
  · norm_num [popVariance]
  · have hn : (0:ℚ) < v.length := by
      have := List.length_pos.mpr hne
      exact_mod_cast this
    have hQ : (v.map (fun x => x^2)).sum ≤ 1000 * v.sum :=
      sum_sq_le_of_bounded (fun x hx => ⟨h0 x hx, h1 x hx⟩)
    have hS : 0 ≤ v.sum := List.sum_nonneg h0
    have hpv : popVariance v = (v.map (fun x => x^2)).sum / v.length -
        (v.sum / v.length)^2 := by
      rw [popVariance, listMean, sum_sq_dev]
      field_simp
      ring
    have hm0 : 0 ≤ v.sum / (v.length : ℚ) := div_nonneg hS (le_of_lt hn)
    have hQD : (v.map (fun x => x^2)).sum / (v.length : ℚ) ≤
        1000 * (v.sum / v.length) := by
      rw [← mul_div_assoc]
      exact (div_le_div_iff_of_pos_right hn).mpr hQ
    rw [hpv]
    nlinarith [sq_nonneg (v.sum / (v.length : ℚ) - 500)]

/-- C5. The claim asserts that the four guard conditions of the decision
chain are mutually exclusive.  They are not: the uniform variance vector
with nine cells of value `500` satisfies both guard 1
(`max_variance < 1000`) and guard 2
(`max_variance < 5000 and variance_std < 1000`) simultaneously. -/
theorem C5_counterexample_guards_overlap :
    guardButtonClick [500,500,500,500,500,500,500,500,500] ∧
      guardDialogOpen [500,500,500,500,500,500,500,500,500] := by
  constructor
  · norm_num [guardButtonClick, maxVariance, listMax]
  · constructor
    · norm_num [maxVariance, listMax]
    · norm_num [popVariance, listMean]

/-- C5 (amended): the classifier is a deterministic function of the per-cell
variance vector, and a nonempty vector with `max_variance = 500` always
yields `button_click` with confidence `0.7`.  The four guards are *not*
pairwise mutually exclusive: guards 1 and 2 can hold simultaneously (and so
can guards 3 and 4); the remaining pairs are exclusive — (1,3), (2,3) and
(2,4) unconditionally, and (1,4) for vectors of nonnegative entries (cell
variances are nonnegative).  First-match evaluation keeps the output
unambiguous. -/
theorem C5_classifier_deterministic_first_match :
    (∀ v w : List ℚ, v = w → classifyChange v = classifyChange w) ∧
    (∀ v : List ℚ, v ≠ [] → maxVariance v = 500 →
      classifyChange v = ("button_click", 7/10)) ∧
    (∀ v : List ℚ, ¬(guardButtonClick v ∧ guardUiUpdate v)) ∧
    (∀ v : List ℚ, ¬(guardDialogOpen v ∧ guardUiUpdate v)) ∧
    (∀ v : List ℚ, ¬(guardDialogOpen v ∧ guardFormInput v)) ∧
    (∀ v : List ℚ, (∀ x ∈ v, 0 ≤ x) → ¬(guardButtonClick v ∧ guardFormInput v)) := by
  refine ⟨fun v w h => by rw [h], ?_, ?_, ?_, ?_, ?_⟩
  · intro v hne hmax
    rw [classifyChange, if_neg hne, if_pos (by rw [hmax]; norm_num)]
  · intro v ⟨h1, h3⟩
    rw [guardButtonClick] at h1
    rw [guardUiUpdate] at h3
    linarith
  · intro v ⟨h2, h3⟩
    rw [guardDialogOpen] at h2
    rw [guardUiUpdate] at h3
    linarith [h2.1]
  · intro v ⟨h2, h4⟩
    rw [guardDialogOpen] at h2
    rw [guardFormInput] at h4
    have := h2.2
    norm_num at this h4
    linarith
  · intro v hnn ⟨h1, h4⟩
    rw [guardButtonClick] at h1
    rw [guardFormInput] at h4
    have hb : popVariance v ≤ 250000 :=
      popVariance_le_of_bounded hnn
        (fun x hx => lt_of_le_of_lt (mem_le_maxVariance hx) h1)
    norm_num at h4
    linarith

/-- C5 witness: the amended theorem applied to the uniform vector of nine
cells of variance `500`, yielding `button_click` with confidence `0.7`. -/
theorem C5_classifier_witness :
    classifyChange [500,500,500,500,500,500,500,500,500] = ("button_click", 7/10) :=
  C5_classifier_deterministic_first_match.2.1 _ (by simp)
    (by norm_num [maxVariance, listMax])

/-! ## Scene processing (`_process_scenes_with_cursor_masking`, lines 140–186)

The loop walks the PySceneDetect scene list with a running list of accepted
cut points.  For scene `i > 0` it computes
`duration = start_time - cut_points[-1].timestamp if cut_points else start_time`
and drops the scene when `duration < min_segment_duration`; then it reads
the frame at the scene start (`ret, frame = cap.read()`; on `not ret` the
scene is silently skipped), optionally masks it, classifies it, and appends
a `CutPoint`.

The embedding is parametric in the frame payload `α`: `mask` models
`_mask_cursor_region` and `vars` the per-cell variance extraction of
`_classify_change`, the two OpenCV-backed steps between a raw frame and the
classifier's variance vector.  A scene carries the frame index and
timestamp of its start (`scene[0].get_frames()` / `.get_seconds()`) and
`frame = none` exactly when `cap.read()` fails for it. -/

/-- The `CutPoint` model fields used by the pipeline (`models/video.py`);
the free-text `description` and the always-`None` `thumbnail` are omitted. -/
structure CutPoint where
  frame_number : ℕ
  timestamp : ℚ
  confidence : ℚ
  change_type : String
deriving Repr, DecidableEq

/-- One entry of the PySceneDetect scene list, as consumed by the loop. -/
structure Scene (α : Type) where
  frames : ℕ
  seconds : ℚ
  frame : Option α
deriving Repr

/-- The loop body of `_process_scenes_with_cursor_masking`: `i` is the
enumeration index, `last` the timestamp of the last accepted cut point
(`none` while `cut_points` is empty). -/
def processScenesGo {α : Type} (mask : α → α) (vars : α → List ℚ)
    (ignoreCursor : Bool) (d : ℚ) :
    List (Scene α) → ℕ → Option ℚ → List CutPoint
  | [], _, _ => []
  | s :: rest, i, last =>
    if 0 < i ∧ s.seconds - last.getD 0 < d then
      processScenesGo mask vars ignoreCursor d rest (i + 1) last
    else
      match s.frame with
      | none => processScenesGo mask vars ignoreCursor d rest (i + 1) last
      | some f =>
        { frame_number := s.frames, timestamp := s.seconds,
          confidence := (classifyChange (vars (if ignoreCursor then mask f else f))).2,
          change_type := (classifyChange (vars (if ignoreCursor then mask f else f))).1 } ::
          processScenesGo mask vars ignoreCursor d rest (i + 1) (some s.seconds)

/-- The function `_process_scenes_with_cursor_masking` itself: start at index `0` with no
accepted cut point. -/
def processScenes {α : Type} (mask : α → α) (vars : α → List ℚ)
    (ignoreCursor : Bool) (d : ℚ) (scenes : List (Scene α)) : List CutPoint :=
  processScenesGo mask vars ignoreCursor d scenes 0 none

/-- Invariant of the loop from index `i ≥ 1` onward: every emitted cut point
lies at least `d` after the reference timestamp, and consecutive emitted cut
points are at least `d` apart. -/
theorem processScenesGo_spacing {α : Type} (mask : α → α) (vars : α → List ℚ)
    (ic : Bool) (d : ℚ) (hd : 0 ≤ d) :
    ∀ (scenes : List (Scene α)) (i : ℕ) (last : Option ℚ), 0 < i →
      (∀ cp ∈ processScenesGo mask vars ic d scenes i last,
        last.getD 0 + d ≤ cp.timestamp) ∧
      List.Chain' (fun a b => a.timestamp + d ≤ b.timestamp)
        (processScenesGo mask vars ic d scenes i last) := by
  intro scenes
  induction scenes with
  | nil => intro i last _; simp [processScenesGo]
  | cons s rest ih =>
    intro i last hi
    by_cases hdrop : 0 < i ∧ s.seconds - last.getD 0 < d
    · rw [processScenesGo, if_pos hdrop]
      exact ih (i + 1) last (Nat.succ_pos i)
    · have hge : last.getD 0 + d ≤ s.seconds := by
        rcases not_and_or.mp hdrop with h | h
        · exact absurd hi h
        · linarith [not_lt.mp h]
      rw [processScenesGo, if_neg hdrop]
      cases hf : s.frame with
      | none => exact ih (i + 1) last (Nat.succ_pos i)
      | some f =>
        have htl := ih (i + 1) (some s.seconds) (Nat.succ_pos i)
        constructor
        · intro cp hcp
          rcases List.mem_cons.mp hcp with rfl | hcp
          · exact hge
          · have := htl.1 cp hcp
            simp only [Option.getD_some] at this
            linarith
        · rw [List.chain'_cons']
          refine ⟨?_, htl.2⟩
          intro b hb
          have hbmem : b ∈ processScenesGo mask vars ic d rest (i + 1) (some s.seconds) :=
            List.mem_of_mem_head? hb
          have := htl.1 b hbmem
          simpa using this

/-- C4: for every scene list and minimum segment duration `d ≥ 0`, the
returned cut-point list is sorted by timestamp; a candidate whose distance
to the reference point (last accepted timestamp, or `0` when none) is below
`d` is dropped without resetting the reference point; and consecutive
accepted cut points are at least `d` apart (here proved for *all*
consecutive pairs, which subsumes the claim's "except possibly involving
the first" allowance). -/
theorem C4_cutpoints_sorted_and_spaced {α : Type} (mask : α → α)
    (vars : α → List ℚ) (ic : Bool) (d : ℚ) (hd : 0 ≤ d)
    (scenes : List (Scene α)) :
    List.Chain' (fun a b => a.timestamp ≤ b.timestamp)
      (processScenes mask vars ic d scenes) ∧
    List.Chain' (fun a b => d ≤ b.timestamp - a.timestamp)
      (processScenes mask vars ic d scenes) ∧
    (∀ (s : Scene α) (rest : List (Scene α)) (i : ℕ) (last : Option ℚ),
      0 < i → s.seconds - last.getD 0 < d →
      processScenesGo mask vars ic d (s :: rest) i last =
        processScenesGo mask vars ic d rest (i + 1) last) := by
  have hgap : List.Chain' (fun a b => a.timestamp + d ≤ b.timestamp)
      (processScenes mask vars ic d scenes) := by
    rw [processScenes]
    cases scenes with
    | nil => simp [processScenesGo]
    | cons s rest =>
      rw [processScenesGo, if_neg (by simp)]
      cases hf : s.frame with
      | none => exact (processScenesGo_spacing mask vars ic d hd rest 1 none one_pos).2
      | some f =>
        have htl := processScenesGo_spacing mask vars ic d hd rest 1 (some s.seconds) one_pos
        rw [List.chain'_cons']
        refine ⟨?_, htl.2⟩
        intro b hb
        have hbmem : b ∈ processScenesGo mask vars ic d rest 1 (some s.seconds) :=
          List.mem_of_mem_head? hb
        have := htl.1 b hbmem
        simpa using this
  refine ⟨hgap.imp ?_, hgap.imp ?_, ?_⟩
  · intro a b h; linarith
  · intro a b h; linarith
  · intro s rest i last hi hlt
    rw [processScenesGo, if_pos ⟨hi, hlt⟩]

/-- C4 witness: the theorem applied at `d = 1` to the two-candidate scenario
of the spec (`t = 3.0` and `t = 3.05`). -/
theorem C4_cutpoints_witness :
    List.Chain' (fun a b => a.timestamp ≤ b.timestamp)
      (processScenes (α := List ℚ) id id true 1
        [⟨90, 3, some []⟩, ⟨92, 61/20, some []⟩]) :=
  (C4_cutpoints_sorted_and_spaced id id true 1 (by norm_num) _).1

/-- C3 (code bug): the first scene of the detector's scene list — the start
of the video — *is* emitted as a `CutPoint`.  The `i > 0` guard (commented
"Skip first scene (start of video)") only exempts the first scene from the
minimum-duration filter; it does not skip its emission.  On the spec's own
scenario (scenes starting at `0.0s`, `3.0s`, `7.0s`, all readable,
`min_segment_duration = 1.0`) the code produces cut points at
`[0.0, 3.0, 7.0]`, not `[3.0, 7.0]`. -/
theorem C3_code_bug_first_scene_emitted :
    processScenes (α := List ℚ) id id true 1
      [⟨0, 0, some []⟩, ⟨90, 3, some []⟩, ⟨210, 7, some []⟩] =
      [⟨0, 0, 1/2, "unknown"⟩, ⟨90, 3, 1/2, "unknown"⟩, ⟨210, 7, 1/2, "unknown"⟩] := by
  norm_num [processScenes, processScenesGo, classifyChange]

/-! ## Cursor masking (`_mask_cursor_region`, lines 188–226)

A frame is modelled as a pixel function over integer coordinates
`(x, y)` (column, row) with three 8-bit channels; the detected blob
centroids (`_detect_cursor_positions`, an OpenCV contour analysis) are an
input.  `cv2.circle(..., -1)` filled discs are modelled as Euclidean discs
of radius `cursor_mask_size`; the pixel picked for the failing input below
is a disc's own center, inside any rasterization.

The source composes three techniques:
1. paint gray discs at the centroids on a copy (`cv2.circle`);
2. when centroids exist, rebuild the output from the *original* frame as
   `bitwise_and(frame, frame, mask=bitwise_not(mask)) +
    bitwise_and(np.full_like(frame, 128), frame, mask=mask)` — note the
   second operand of the second `bitwise_and` is `frame`, so a disc pixel
   becomes `128 AND original`, discarding the painting of technique 1;
3. zero a band of width `edge_mask_width` on all four borders. -/

/-- One pixel: three 8-bit channels. -/
def Pix : Type := ℕ × ℕ × ℕ

instance : DecidableEq Pix := by unfold Pix; infer_instance

/-- Channel-wise bitwise AND (`cv2.bitwise_and` of two aligned pixels). -/
def pixLand (a b : Pix) : Pix := (a.1 &&& b.1, a.2.1 &&& b.2.1, a.2.2 &&& b.2.2)

/-- The neutral-gray pixel `(128, 128, 128)`. -/
def grayPix : Pix := (128, 128, 128)

/-- Membership in the union of the radius-`cursor_mask_size` discs centered
at the detected blob centroids. -/
def inAnyDisc (positions : List (ℤ × ℤ)) (x y : ℤ) : Bool :=
  positions.any (fun p =>
    decide ((x - p.1)^2 + (y - p.2)^2 ≤ cursor_mask_size^2))

/-- Membership in the `edge_mask_width`-wide border band of an `h × w`
frame (rows `[:ew]` and `[-ew:]`, columns `[:ew]` and `[-ew:]`). -/
def inEdgeBand (h w : ℤ) (x y : ℤ) : Bool :=
  decide (y < (edge_mask_width : ℤ)) || decide (h - (edge_mask_width : ℤ) ≤ y) ||
  decide (x < (edge_mask_width : ℤ)) || decide (w - (edge_mask_width : ℤ) ≤ x)

/-- The function `_mask_cursor_region` as a pixel function. -/
def maskCursorRegion (h w : ℤ) (positions : List (ℤ × ℤ))
    (frame : ℤ → ℤ → Pix) (x y : ℤ) : Pix :=
  let tech1 : ℤ → ℤ → Pix := fun x y =>
    if inAnyDisc positions x y then grayPix else frame x y
  let tech2 : ℤ → ℤ → Pix :=
    if positions.isEmpty then tech1
    else fun x y =>
      if inAnyDisc positions x y then pixLand grayPix (frame x y) else frame x y
  if inEdgeBand h w x y then (0, 0, 0) else tech2 x y

/-- C6 (code bug): on a `500 × 500` frame whose pixels are all
`(100, 100, 100)`, with one detected blob at `(100, 100)`, the masked frame
holds `(0, 0, 0)` at the disc center — `128 AND 100 = 0` per channel — not
the uniform neutral gray `(128, 128, 128)` the claim requires, because the
compositing step ANDs the gray plane with the *frame* instead of keeping it.
A pixel outside all discs and outside the edge band (here `(300, 300)`) is
bit-identical to the source frame, as the claim states. -/
theorem C6_code_bug_disc_pixel_not_gray :
    maskCursorRegion 500 500 [(100, 100)] (fun _ _ => (100, 100, 100)) 100 100
        = (0, 0, 0) ∧
      maskCursorRegion 500 500 [(100, 100)] (fun _ _ => (100, 100, 100)) 100 100
        ≠ grayPix ∧
      maskCursorRegion 500 500 [(100, 100)] (fun _ _ => (100, 100, 100)) 300 300
        = (100, 100, 100) := by
  refine ⟨?_, ?_, ?_⟩ <;> decide

/-! ## Segment creation (`_create_segments`, lines 326–424)

When FFmpeg is unavailable, the function returns immediately with a single
note entry and writes `ffmpeg_not_available.txt`, whose tail lists one line
per cut point (`"Cut {i+1}: {timestamp:.2f}s (Frame {frame_number})"`); the
artifact content is modelled as the list of `(timestamp, frame_number)`
pairs.  When FFmpeg is available, the loop walks consecutive pairs of
`[0.0] + [cp.timestamp for cp in cut_points]`, skips pairs closer than
`0.1` seconds, and per surviving pair either records a media entry (FFmpeg
invocation succeeded) or an error entry (`CalledProcessError`); invocation
success is an input `ok : ℕ → Bool` indexed by the original loop index. -/

/-- One element of the returned `segments` list of dicts. -/
structure SegEntry where
  filename : String
  start_time : ℚ
  end_time : ℚ
  duration : ℚ
  error : Option String
  note : Option String
deriving Repr, DecidableEq

/-- Zero-padded rendering of `{n:03d}`. -/
def pad3 (n : ℕ) : String :=
  if n < 10 then "00" ++ toString n
  else if n < 100 then "0" ++ toString n
  else toString n

/-- The per-range media entry (`segment_{i+1:03d}.mp4`). -/
def segMediaEntry (i : ℕ) (s e : ℚ) : SegEntry :=
  { filename := "segment_" ++ pad3 (i + 1) ++ ".mp4", start_time := s,
    end_time := e, duration := e - s, error := none, note := none }

/-- The per-range error entry recorded when one FFmpeg invocation fails. -/
def segErrorEntry (i : ℕ) (s e : ℚ) : SegEntry :=
  { filename := "segment_" ++ pad3 (i + 1) ++ "_error.txt", start_time := s,
    end_time := e, duration := e - s,
    error := some "CalledProcessError", note := none }

/-- The degraded-mode note entry. -/
def ffmpegNoteEntry : SegEntry :=
  { filename := "ffmpeg_not_available.txt", start_time := 0, end_time := 0,
    duration := 0, error := none,
    note := some "FFmpeg not installed. Install FFmpeg to create video segments." }

/-- An entry that is an actual `.mp4` media segment (filename suffix test,
over the underlying character list so it evaluates by `decide`). -/
def isMediaEntry (e : SegEntry) : Bool := ".mp4".data.isSuffixOf e.filename.data

/-- The boundary list `all_points = [0.0] + [cp.timestamp for cp in cut_points]`. -/
def allPoints (cuts : List CutPoint) : List ℚ :=
  0 :: cuts.map (fun cp => cp.timestamp)

/-- The consecutive boundary pairs `(all_points[i], all_points[i+1])`. -/
def plannedPairs (cuts : List CutPoint) : List (ℚ × ℚ) :=
  (allPoints cuts).zip (allPoints cuts).tail

/-- The pairs surviving the `< 0.1`-second drop filter. -/
def keptPairs (cuts : List CutPoint) : List (ℚ × ℚ) :=
  (plannedPairs cuts).filter (fun pr => decide (¬(pr.2 - pr.1 < 1/10)))

/-- The extraction loop over the enumerated boundary pairs. -/
def segLoop (ok : ℕ → Bool) : List (ℕ × ℚ × ℚ) → List SegEntry
  | [] => []
  | (i, s, e) :: rest =>
    if e - s < 1/10 then segLoop ok rest
    else (if ok i then segMediaEntry i s e else segErrorEntry i s e) ::
      segLoop ok rest

/-- Result of `_create_segments`: the returned `segments` list, plus the
content of the degraded-mode artifact when it is written (one
`(timestamp, frame_number)` pair per cut point). -/
structure SegResult where
  segments : List SegEntry
  noteLines : Option (List (ℚ × ℕ))
deriving Repr

/-- The function `_create_segments`, with FFmpeg availability and per-invocation success
as inputs. -/
def createSegments (ffmpegAvailable : Bool) (ok : ℕ → Bool)
    (cuts : List CutPoint) : SegResult :=
  if ffmpegAvailable then
    { segments := segLoop ok (plannedPairs cuts).enum, noteLines := none }
  else
    { segments := [ffmpegNoteEntry],
      noteLines := some (cuts.map (fun cp => (cp.timestamp, cp.frame_number))) }

/-- Consecutive pairs drawn from a list and its tail are contiguous: each
pair's second component is the next pair's first component. -/
theorem chain'_zip_tail (l : List ℚ) :
    List.Chain' (fun a b : ℚ × ℚ => a.2 = b.1) (l.zip l.tail) := by
  induction l with
  | nil => simp
  | cons a t ih =>
    cases t with
    | nil => simp
    | cons b t' =>
      rw [List.tail_cons, List.zip_cons_cons, List.chain'_cons']
      refine ⟨?_, by simpa using ih⟩
      intro c hc
      cases t' with
      | nil => simp at hc
      | cons c' t'' =>
        rw [List.zip_cons_cons] at hc
        simp only [List.head?_cons, Option.mem_def, Option.some.injEq] at hc
        rw [← hc]

theorem plannedPairs_length (cuts : List CutPoint) :
    (plannedPairs cuts).length = cuts.length := by
  simp only [plannedPairs, allPoints, List.length_zip, List.tail_cons,
    List.length_cons, List.length_map]
  omega

/-- C7: for a timestamp-sorted cut-point list, every range surviving the
`< 0.1`-second drop filter has `start_time < end_time`; the planned ranges
are contiguous (each pair's end is the next pair's start) before the drop
filter; and the number of planned ranges equals `len(cut_points)`, not
`len(cut_points) + 1`. -/
theorem C7_segment_planner (cuts : List CutPoint)
    (hsorted : List.Chain' (fun a b : CutPoint => a.timestamp ≤ b.timestamp) cuts) :
    (∀ pr ∈ keptPairs cuts, pr.1 < pr.2) ∧
    List.Chain' (fun a b : ℚ × ℚ => a.2 = b.1) (plannedPairs cuts) ∧
    (plannedPairs cuts).length = cuts.length := by
  refine ⟨?_, chain'_zip_tail _, plannedPairs_length cuts⟩
  intro pr hpr
  have h := (List.mem_filter.mp hpr).2
  have h' : ¬(pr.2 - pr.1 < 1/10) := of_decide_eq_true h
  linarith [not_lt.mp h']

/-- C7 witness: the theorem applied to the one-cut-point list at `3.0s`. -/
theorem C7_segment_planner_witness :
    (plannedPairs [⟨90, 3, 1/2, "cut"⟩]).length =
      ([⟨90, 3, 1/2, "cut"⟩] : List CutPoint).length :=
  (C7_segment_planner [⟨90, 3, 1/2, "cut"⟩] (by simp)).2.2

/-- C8: when FFmpeg is unavailable, `_create_segments` returns exactly the
one explanatory artifact entry named `ffmpeg_not_available.txt` (so zero
`.mp4` media entries), and the artifact lists every cut point's timestamp
and frame number; the call returns normally. -/
theorem C8_degraded_mode (ok : ℕ → Bool) (cuts : List CutPoint) :
    (createSegments false ok cuts).segments = [ffmpegNoteEntry] ∧
    (createSegments false ok cuts).segments.filter isMediaEntry = [] ∧
    (createSegments false ok cuts).noteLines =
      some (cuts.map (fun cp => (cp.timestamp, cp.frame_number))) := by
  refine ⟨rfl, ?_, rfl⟩
  show List.filter isMediaEntry [ffmpegNoteEntry] = []
  decide

/-- Every entry the extraction loop emits takes its time range from one of
the boundary pairs it was given. -/
theorem segLoop_mem_pairs {ok : ℕ → Bool} :
    ∀ (pairs : List (ℕ × ℚ × ℚ)) (e : SegEntry), e ∈ segLoop ok pairs →
      ∃ p ∈ pairs, e.start_time = p.2.1 ∧ e.end_time = p.2.2 := by
  intro pairs
  induction pairs with
  | nil => intro e he; simp [segLoop] at he
  | cons p rest ih =>
    intro e he
    obtain ⟨i, s, en⟩ := p
    rw [segLoop] at he
    by_cases hc : en - s < 1/10
    · rw [if_pos hc] at he
      obtain ⟨q, hq, hq2⟩ := ih e he
      exact ⟨q, List.mem_cons_of_mem _ hq, hq2⟩
    · rw [if_neg hc] at he
      rcases List.mem_cons.mp he with rfl | he'
      · refine ⟨(i, s, en), List.mem_cons_self _ _, ?_⟩
        cases hok : ok i <;> simp [hok, segMediaEntry, segErrorEntry]
      · obtain ⟨q, hq, hq2⟩ := ih e he'
        exact ⟨q, List.mem_cons_of_mem _ hq, hq2⟩

/-- C10: every entry emitted by `_create_segments` with FFmpeg available has
`end_time` at most the maximum cut-point timestamp (the final range from the
last cut point to the end of the video is never extracted), and for an empty
cut-point list no media segment is emitted at all, FFmpeg available or not. -/
theorem C10_segment_end_le_max_cut (ok : ℕ → Bool) (cuts : List CutPoint) :
    (∀ e ∈ (createSegments true ok cuts).segments,
      e.end_time ≤ listMax (cuts.map (fun cp => cp.timestamp))) ∧
    (∀ (avail : Bool) (ok2 : ℕ → Bool),
      (createSegments avail ok2 ([] : List CutPoint)).segments.filter
        isMediaEntry = []) := by
  constructor
  · intro e he
    have hseg : e ∈ segLoop ok (plannedPairs cuts).enum := he
    obtain ⟨p, hp, _, hend⟩ := segLoop_mem_pairs _ e hseg
    have hp2 : p.2 ∈ plannedPairs cuts := by
      have h2 := List.mem_enum_iff_getElem?.mp hp
      exact List.getElem?_mem h2
    have hsnd : p.2.2 ∈ (allPoints cuts).tail := (List.of_mem_zip hp2).2
    rw [hend]
    apply mem_le_listMax
    simpa [allPoints] using hsnd
  · intro avail ok2
    cases avail
    · show List.filter isMediaEntry [ffmpegNoteEntry] = []
      decide
    · rfl

/-- C10 witness: the theorem applied to the single cut point at `3.0s` with
every FFmpeg invocation succeeding; the surviving media entry covers
`[0, 3]` and its end does not exceed the maximum cut timestamp `3`. -/
theorem C10_segment_end_witness :
    (segMediaEntry 0 0 3).end_time ≤
      listMax (([⟨90, 3, 1/2, "cut"⟩] : List CutPoint).map
        (fun cp => cp.timestamp)) :=
  (C10_segment_end_le_max_cut (fun _ => true) [⟨90, 3, 1/2, "cut"⟩]).1
    (segMediaEntry 0 0 3)
    (by norm_num [createSegments, plannedPairs, allPoints, List.enum, segLoop])

/-- C9.  The claim asserts every failure path leaves a recorded trace.  The
frame-read failure path of `_process_scenes_with_cursor_masking`
(`ret, frame = cap.read(); if not ret: continue`) does not: a scene whose
frame cannot be read is dropped and the output is indistinguishable from
processing an empty scene list — no raised error, no recorded entry. -/
theorem C9_counterexample_unreadable_frame_untraced :
    processScenes (α := List ℚ) id id true 1 [⟨42, 2, none⟩] = [] ∧
      processScenes (α := List ℚ) id id true 1 [] = [] ∧
      processScenes (α := List ℚ) id id true 1 [⟨42, 2, none⟩] =
        processScenes (α := List ℚ) id id true 1 [] := by
  refine ⟨?_, rfl, ?_⟩ <;> norm_num [processScenes, processScenesGo]

/-- C9 (amended): failure paths in *segment creation* are recorded — every
boundary pair surviving the drop filter yields exactly one entry in the
returned list (an error entry when its FFmpeg invocation fails), and FFmpeg
unavailability yields the explanatory artifact entry — but a frame that
cannot be read during scene processing is silently skipped: the loop
recurses with unchanged state and records nothing. -/
theorem C9_failure_paths_recorded :
    (∀ (ok : ℕ → Bool) (pairs : List (ℕ × ℚ × ℚ)),
      (segLoop ok pairs).length =
        (pairs.filter (fun p => decide (¬(p.2.2 - p.2.1 < 1/10)))).length) ∧
    (∀ (ok : ℕ → Bool) (i : ℕ) (s e : ℚ) (rest : List (ℕ × ℚ × ℚ)),
      ¬(e - s < 1/10) → ok i = false →
      segLoop ok ((i, s, e) :: rest) = segErrorEntry i s e :: segLoop ok rest) ∧
    (∀ (ok : ℕ → Bool) (cuts : List CutPoint),
      (createSegments false ok cuts).segments = [ffmpegNoteEntry]) ∧
    (∀ (α : Type) (mask : α → α) (vars : α → List ℚ) (ic : Bool) (d : ℚ)
      (s : Scene α) (rest : List (Scene α)) (i : ℕ) (last : Option ℚ),
      s.frame = none →
      processScenesGo mask vars ic d (s :: rest) i last =
        processScenesGo mask vars ic d rest (i + 1) last) := by
  refine ⟨?_, ?_, fun ok cuts => rfl, ?_⟩
  · intro ok pairs
    induction pairs with
    | nil => rfl
    | cons p rest ih =>
      obtain ⟨i, s, e⟩ := p
      rw [segLoop, List.filter_cons]
      by_cases hc : e - s < 1/10
      · rw [if_pos hc, if_neg (fun h => (of_decide_eq_true h) hc)]
        exact ih
      · rw [if_neg hc, if_pos (decide_eq_true (p := ¬(e - s < 1/10)) hc)]
        simp only [List.length_cons, ih]
  · intro ok i s e rest hkeep hfail
    rw [segLoop, if_neg hkeep, hfail]
    rfl
  · intro α mask vars ic d s rest i last hnone
    rw [processScenesGo]
    by_cases hdrop : 0 < i ∧ s.seconds - last.getD 0 < d
    · rw [if_pos hdrop]
    · rw [if_neg hdrop, hnone]

/-- C9 witness: a surviving range whose FFmpeg invocation fails is recorded
as an error entry (the amended theorem applied at the concrete range
`(0, 0, 3)` with every invocation failing). -/
theorem C9_failure_paths_witness :
    segLoop (fun _ => false) [(0, 0, 3)] = [segErrorEntry 0 0 3] :=
  C9_failure_paths_recorded.2.1 (fun _ => false) 0 0 3 [] (by norm_num) rfl
